import Mathlib

/-!
Verification of the mvs-photo-form core (src-tauri/src/lib.rs).

The Rust core is shallowly embedded as follows.

* Paths (`std::path::Path`) are modelled structurally as lists of
  components (`Path := List String`); `parent` is `dropLast`, `file_name`
  is the last component, `join` is append.  An absolute path carries `""`
  as its first component.
* The filesystem is a partial map from paths to file contents (`FS α`);
  `fs::copy` and `fs::write` become pointwise updates.  For the byte-level
  operations (`create_backup_file`, `write_csv_content`) contents are raw
  strings; for the roster operations (`load_csv_file`, `save_player_data`)
  a file's content is the parsed CSV table (header row plus data rows),
  abstracting the csv crate's quoting layer.
* The serde-driven CSV deserialization of `Player` (fixed fields renamed
  to their exact header labels, plus a `#[serde(flatten)]` bag of unknown
  columns) is embedded by `decodeRow`: columns are matched by exact header
  name, a row whose width differs from the header's is an error, and
  unknown columns land in `other_fields` in header order.  On the write
  side, `#[serde(flatten)]` makes serde serialize the whole struct via
  `serialize_map`, and the csv crate's serializer rejects map
  serialization, so `writer.serialize(player)` fails for every record:
  `serializePlayer` always errors, `encodeTable` succeeds only for the
  empty roster, and `save_player_data` models the truncation that
  `csv::Writer::from_path` performs before the failing write.
* `chrono::Utc::now().format("%Y%m%d_%H%M%S")` is an opaque timestamp
  string parameter, and `std::env::var("HOME")` an `Option Path` parameter.
* The external `git` processes of `git_pull` / `git_push` are an oracle
  `GitExec` mapping an argv and a working directory to either a spawn
  failure (`Command::output()` returning `Err`) or a `CmdResult`
  (exit-status flag, stdout, stderr).  Each embedded git function also
  returns the trace of commands it attempted, in order, so that claims
  about which steps run can be stated.
-/

namespace MvsPhotoForm

/-! ## Paths and filesystems -/

/-- A filesystem path, as its list of components (`Path::components`). -/
abbrev FPath := List String

/-- A filesystem: a partial map from paths to file contents. -/
def FS (α : Type) := FPath → Option α

/-- Overwrite (or create) the file at `p` with content `v`. -/
def setFile {α : Type} (fs : FS α) (p : FPath) (v : α) : FS α :=
  fun q => if q = p then some v else fs q

/-! ## Data model (`Player`, `CSVData`, `PlayerUpdate` from lib.rs) -/

/-- One roster row: the ten fixed serde-renamed fields of `struct Player`
plus the `#[serde(flatten)] other_fields` bag of unknown columns
(kept as an association list in the order the columns were read). -/
structure Player where
  barcode : String
  team : String
  first_name : String
  last_name : String
  jersey_number : String
  coach : String
  cell_phone : String
  email : String
  products : String
  packages : String
  other_fields : List (String × String)
deriving DecidableEq, Repr

/-- `struct CSVData`: the decoded roster, the derived team list and the
source path. -/
structure CSVData where
  players : List Player
  teams : List String
  file_path : FPath
deriving DecidableEq, Repr

/-- `struct PlayerUpdate`: the barcode used to locate a record plus the
seven mutable fields. -/
structure PlayerUpdate where
  barcode : String
  first_name : String
  last_name : String
  cell_phone : String
  email : String
  coach : String
  products : String
  packages : String
deriving DecidableEq, Repr

/-- A parsed CSV file: the header row and the data rows.  This abstracts
the csv crate's text layer; each row is the list of its field values. -/
structure Table where
  header : List String
  rows : List (List String)
deriving DecidableEq, Repr

/-! ## Tabular codec (serde + csv crate behaviour on `Player`) -/

/-- The exact serde rename labels of `Player`'s fixed fields, in
declaration order. -/
def fixedLabels : List String :=
  ["Barcode Number", "Team", "First Name", "Last Name", "Jersey Number",
   "Coach", "Cell Phone", "Email", "Products", "Packages"]

/-- Look up the value of column `k` in a header-to-value association list
(serde matches columns by exact name). -/
def findField (k : String) : List (String × String) → Option String
  | [] => none
  | (k', v) :: rest => if k' = k then some v else findField k rest

/-- Deserialize one CSV record into a `Player`: the row must have the
header's width (csv's `UnequalLengths` check), every fixed label must be
present, and all remaining columns populate `other_fields` in header
order. -/
def decodeRow (header row : List String) : Option Player :=
  if row.length = header.length then
    match findField "Barcode Number" (header.zip row), findField "Team" (header.zip row),
          findField "First Name" (header.zip row), findField "Last Name" (header.zip row),
          findField "Jersey Number" (header.zip row), findField "Coach" (header.zip row),
          findField "Cell Phone" (header.zip row), findField "Email" (header.zip row),
          findField "Products" (header.zip row), findField "Packages" (header.zip row) with
    | some b, some t, some f, some l, some j, some c, some ph, some e,
      some pr, some pk =>
        some ⟨b, t, f, l, j, c, ph, e, pr, pk,
              (header.zip row).filter (fun kv => !(fixedLabels.contains kv.1))⟩
    | _, _, _, _, _, _, _, _, _, _ => none
  else none

/-- The `for result in reader.deserialize()` loop: decode each row in
order, aborting on the first error. -/
def decodeRows (header : List String) : List (List String) → Option (List Player)
  | [] => some []
  | r :: rs =>
    match decodeRow header r, decodeRows header rs with
    | some p, some ps => some (p :: ps)
    | _, _ => none

/-- Decode a whole table into the roster's record list. -/
def decodeTable (t : Table) : Option (List Player) :=
  decodeRows t.header t.rows

/-- The keys of a player's open attribute bag, in order. -/
def bagKeys (p : Player) : List String :=
  p.other_fields.map Prod.fst

/-- `csv::Writer::serialize` on one `Player`: `#[serde(flatten)]` makes
serde drive the whole struct through `serialize_map`, and the csv crate's
serializer rejects map serialization, so every per-record write fails
with its `serializing maps is not supported` error — no CSV row is ever
produced for this type. -/
def serializePlayer (_p : Player) : Except String (List String) :=
  .error "serializing maps is not supported"

/-- The `for player in &csv_data.players`/`writer.serialize(player)?`
loop: serialize each record in turn, aborting on the first error — which
on this type is the first record. -/
def encodeRows : List Player → Option (List (List String))
  | [] => some []
  | p :: rest =>
    match serializePlayer p, encodeRows rest with
    | .ok r, some rs => some (r :: rs)
    | _, _ => none

/-- The content of a freshly truncated CSV file (what
`csv::Writer::from_path` leaves behind before anything is written): no
header, no rows; it decodes to the empty roster. -/
def emptyTable : Table := ⟨[], []⟩

/-- The write stage of `save_player_data` as a whole: with zero records
the loop never runs and `flush` leaves the empty file; with at least one
record the first `writer.serialize` fails and no table is produced. -/
def encodeTable (l : List Player) : Option Table :=
  match encodeRows l with
  | none => none
  | some rows => some ⟨[], rows⟩

/-! ## Team list: `HashSet` collection plus `Vec::sort`.

Rust sorts `Vec<String>` in lexicographic byte order, which on UTF-8
coincides with lexicographic codepoint order; `lexLe` / `strLe` embed that
order and `sortStrings` is a sort with respect to it. -/

/-- Lexicographic codepoint order on character lists (`true` iff the first
argument is `≤` the second). -/
def lexLe : List Char → List Char → Bool
  | [], _ => true
  | _ :: _, [] => false
  | a :: as, b :: bs =>
    if a.toNat < b.toNat then true
    else if b.toNat < a.toNat then false
    else lexLe as bs

/-- Rust's `String` ordering. -/
def strLe (a b : String) : Bool :=
  lexLe a.toList b.toList

/-- Insert a string into a `strLe`-sorted list. -/
def insertSorted (x : String) : List String → List String
  | [] => [x]
  | y :: ys => if strLe x y then x :: y :: ys else y :: insertSorted x ys

/-- Insertion sort with respect to `strLe`. -/
def sortStrings : List String → List String
  | [] => []
  | x :: xs => insertSorted x (sortStrings xs)

/-- The derived team list of `load_csv_file`: the distinct team values
(`HashSet`) of the records, sorted ascending (`teams_vec.sort()`). -/
def teamsOf (players : List Player) : List String :=
  sortStrings (players.map Player.team).dedup

/-- `load_csv_file`: read the file at `p`, decode every row in order, and
derive the sorted distinct team list. -/
def load_csv_file (fs : FS Table) (p : FPath) : Option CSVData :=
  match fs p with
  | none => none
  | some t =>
    match decodeTable t with
    | none => none
    | some players => some ⟨players, teamsOf players, p⟩

/-! ## Backup manager (`create_backup_file`) -/

/-- Split a character list at its last `.`: `some (pre, post)` with
`cs = pre ++ '.' :: post` and no `.` in `post`, or `none` if there is no
dot. -/
def splitLastDot : List Char → Option (List Char × List Char)
  | [] => none
  | c :: rest =>
    match splitLastDot rest with
    | some (pre, post) => some (c :: pre, post)
    | none => if c = '.' then some ([], rest) else none

/-- Rust's `file_stem` / `extension` split of a file name: no dot (or only
a leading dot) means no extension; otherwise split at the last dot. -/
def splitExtension (name : String) : String × Option String :=
  match name.toList with
  | [] => (name, none)
  | c :: rest =>
    match splitLastDot rest with
    | none => (name, none)
    | some (pre, post) => (⟨c :: pre⟩, some ⟨post⟩)

/-- The backup file name `{stem}_backup_{timestamp}.{extension}`, with the
extension defaulting to `csv` (`unwrap_or`). -/
def backupFileName (ts : String) (name : String) : String :=
  let se := splitExtension name
  se.1 ++ "_backup_" ++ ts ++ "." ++ se.2.getD "csv"

/-- The sibling path `create_backup_file` writes to: if the path has a
file name, keep its parent and rename; a path with no parent or file name
falls back to the relative `backup_{timestamp}.csv`. -/
def backupPathOf (ts : String) (p : FPath) : FPath :=
  match p.getLast? with
  | some name => p.dropLast ++ [backupFileName ts name]
  | none => ["backup_" ++ ts ++ ".csv"]

/-- `create_backup_file`: `fs::copy` the file at `p` to its timestamped
sibling, failing when `p` does not exist, and return the backup's path. -/
def create_backup_file {α : Type} (fs : FS α) (ts : String) (p : FPath) :
    Option (FS α × FPath) :=
  let bp := backupPathOf ts p
  match fs p with
  | none => none
  | some c => some (setFile fs bp c, bp)

/-! ## Mutation engine (`save_player_data`) -/

/-- Overwrite the seven mutable fields of a player with the update's
values (the body of the `if let Some(player)` block). -/
def applyUpdate (p : Player) (u : PlayerUpdate) : Player :=
  { p with
    first_name := u.first_name
    last_name := u.last_name
    cell_phone := u.cell_phone
    email := u.email
    coach := u.coach
    products := u.products
    packages := u.packages }

/-- `iter_mut().find(..)` plus the update: rewrite the first player whose
barcode equals the update's, leaving everything else alone. -/
def updatePlayers : List Player → PlayerUpdate → List Player
  | [], _ => []
  | p :: rest, u =>
    if p.barcode = u.barcode then applyUpdate p u :: rest
    else p :: updatePlayers rest u

/-- `save_player_data`: back up the file, load it, update the (first)
matching player in memory, then rewrite the file.  `csv::Writer::from_path`
truncates the file immediately; afterwards the record loop either
completes (only possible for an empty roster) or fails at its first
`writer.serialize`, leaving the file truncated.  Returns the `Result`
(`some ()` for `Ok`, `none` for `Err`) paired with the final
filesystem. -/
def save_player_data (fs : FS Table) (ts : String) (p : FPath)
    (u : PlayerUpdate) : Option Unit × FS Table :=
  match create_backup_file fs ts p with
  | none => (none, fs)
  | some (fs1, _) =>
    match load_csv_file fs1 p with
    | none => (none, fs1)
    | some data =>
      let fs2 := setFile fs1 p emptyTable
      match encodeTable (updatePlayers data.players u) with
      | none => (none, fs2)
      | some t => (some (), setFile fs2 p t)

/-! ## Destination resolver (`write_csv_content`) -/

/-- The bare-filename test of `write_csv_content`:
`path.parent().is_none() || path.parent() == Some(Path::new(""))`. -/
def isBareName (p : FPath) : Bool :=
  match p with
  | [] => true
  | [_] => true
  | _ :: _ :: _ => false

/-- The resolved target: a bare file name goes under
`$HOME/Downloads` (HOME defaulting to `/tmp`); anything else is used as
given. -/
def resolveTarget (home : Option FPath) (p : FPath) : FPath :=
  if isBareName p then (home.getD ["", "tmp"]) ++ ["Downloads"] ++ p
  else p

/-- `write_csv_content`: resolve the target, back it up first when it
already exists, then write `content` verbatim. -/
def write_csv_content (fs : FS String) (home : Option FPath) (ts : String)
    (p : FPath) (content : String) : Option (FS String) :=
  let target := resolveTarget home p
  if (fs target).isSome then
    match create_backup_file fs ts target with
    | none => none
    | some (fs1, _) => some (setFile fs1 target content)
  else some (setFile fs target content)

/-! ## Sync orchestrator (`git_pull`, `git_push`) -/

/-- The outcome of one external command (`std::process::Output`):
the exit-status success flag, stdout and stderr. -/
structure CmdResult where
  success : Bool
  stdout : String
  stderr : String
deriving DecidableEq, Repr

/-- The external process oracle: argv and working directory to either a
spawn error or the command's output. -/
def GitExec := List String → FPath → Except String CmdResult

/-- Does `needle` occur at the start of `hay`? -/
def startsWithC : List Char → List Char → Bool
  | [], _ => true
  | _ :: _, [] => false
  | a :: as, b :: bs => a == b && startsWithC as bs

/-- Does `needle` occur anywhere in `hay`? -/
def containsC (needle : List Char) : List Char → Bool
  | [] => startsWithC needle []
  | c :: rest => startsWithC needle (c :: rest) || containsC needle rest

/-- Rust's `str::contains` with a string pattern. -/
def containsStr (hay pat : String) : Bool :=
  containsC pat.toList hay.toList

/-- The fixed working-tree directory name. -/
def barcodesDirName : String := "mvs-job-barcodes"

/-- The hard-coded clone argv. -/
def cloneArgv : List String :=
  ["git", "clone", "git@github.com:SonicKurt/mvs-job-barcodes.git"]

/-- The pull argv. -/
def pullArgv : List String := ["git", "pull"]

/-- The add argv. -/
def addArgv : List String := ["git", "add", "."]

/-- The commit argv for a message. -/
def commitArgv (msg : String) : List String := ["git", "commit", "-m", msg]

/-- The push argv. -/
def pushArgv : List String := ["git", "push"]

/-- `git_pull`: clone into the parent directory when the working tree is
absent, otherwise pull inside it.  Besides the `Result<String, String>` it
returns the trace of attempted commands (argv with working directory). -/
def git_pull (parentDir : FPath) (dirExists : FPath → Bool) (exec : GitExec) :
    Except String String × List (List String × FPath) :=
  let barcodesDir := parentDir ++ [barcodesDirName]
  if dirExists barcodesDir then
    match exec pullArgv barcodesDir with
    | .error e => (.error ("Failed to run git pull: " ++ e), [(pullArgv, barcodesDir)])
    | .ok o =>
      if o.success then
        (.ok ("Pull successful: " ++ o.stdout.trim), [(pullArgv, barcodesDir)])
      else
        (.error ("Git pull failed: " ++ o.stderr), [(pullArgv, barcodesDir)])
  else
    match exec cloneArgv parentDir with
    | .error e => (.error ("Failed to run git clone: " ++ e), [(cloneArgv, parentDir)])
    | .ok o =>
      if o.success then
        (.ok "Repository cloned successfully!", [(cloneArgv, parentDir)])
      else
        (.error ("Git clone failed: " ++ o.stderr), [(cloneArgv, parentDir)])

/-- `git_push`: require the working tree, then add, commit and push in
sequence, aborting on the first failure; a failed commit whose combined
output mentions `nothing to commit` gets its own fixed message.  Besides
the `Result<String, String>` it returns the trace of attempted
commands. -/
def git_push (parentDir : FPath) (dirExists : FPath → Bool) (exec : GitExec)
    (commit_message : String) :
    Except String String × List (List String × FPath) :=
  let barcodesDir := parentDir ++ [barcodesDirName]
  if dirExists barcodesDir then
    match exec addArgv barcodesDir with
    | .error e => (.error ("Failed to run git add: " ++ e), [(addArgv, barcodesDir)])
    | .ok addOut =>
      if addOut.success then
        match exec (commitArgv commit_message) barcodesDir with
        | .error e =>
          (.error ("Failed to run git commit: " ++ e),
           [(addArgv, barcodesDir), (commitArgv commit_message, barcodesDir)])
        | .ok commitOut =>
          if commitOut.success then
            match exec pushArgv barcodesDir with
            | .error e =>
              (.error ("Failed to run git push: " ++ e),
               [(addArgv, barcodesDir), (commitArgv commit_message, barcodesDir),
                (pushArgv, barcodesDir)])
            | .ok pushOut =>
              if pushOut.success then
                (.ok "Changes pushed successfully!",
                 [(addArgv, barcodesDir), (commitArgv commit_message, barcodesDir),
                  (pushArgv, barcodesDir)])
              else
                (.error ("Git push failed: " ++ pushOut.stderr),
                 [(addArgv, barcodesDir), (commitArgv commit_message, barcodesDir),
                  (pushArgv, barcodesDir)])
          else
            if containsStr commitOut.stdout "nothing to commit"
                || containsStr commitOut.stderr "nothing to commit" then
              (.error "Nothing to commit - no changes detected.",
               [(addArgv, barcodesDir), (commitArgv commit_message, barcodesDir)])
            else
              (.error ("Git commit failed: " ++ commitOut.stderr),
               [(addArgv, barcodesDir), (commitArgv commit_message, barcodesDir)])
      else
        (.error ("Git add failed: " ++ addOut.stderr), [(addArgv, barcodesDir)])
  else
    (.error "mvs-job-barcodes folder not found. Please pull first.", [])

/-! ## Mutation lemmas -/

/-- When no record's barcode matches, the update loop is the identity. -/
theorem updatePlayers_no_match (l : List Player) (u : PlayerUpdate)
    (h : ∀ q ∈ l, q.barcode ≠ u.barcode) : updatePlayers l u = l := by
  induction l with
  | nil => rfl
  | cons p rest ih =>
    unfold updatePlayers
    rw [if_neg (h p (List.mem_cons_self p rest))]
    rw [ih (fun q hq => h q (List.mem_cons_of_mem p hq))]

/-- The update never touches any record's barcode (and never changes the
number of records). -/
theorem updatePlayers_map_barcode (l : List Player) (u : PlayerUpdate) :
    (updatePlayers l u).map Player.barcode = l.map Player.barcode := by
  induction l with
  | nil => rfl
  | cons p rest ih =>
    unfold updatePlayers
    by_cases hb : p.barcode = u.barcode
    · rw [if_pos hb]
      rfl
    · rw [if_neg hb]
      simp [ih]

/-! ## Backup naming lemmas -/

/-- `splitLastDot` really splits at a dot: the input is the part before,
a dot, and the part after. -/
theorem splitLastDot_eq {cs pre post : List Char}
    (h : splitLastDot cs = some (pre, post)) : cs = pre ++ '.' :: post := by
  induction cs generalizing pre post with
  | nil => exact absurd h (by simp [splitLastDot])
  | cons c rest ih =>
    unfold splitLastDot at h
    split at h
    case h_1 pre' post' hrest =>
      cases h
      rw [List.cons_append]
      rw [← ih hrest]
    case h_2 hrest =>
      split at h
      case isTrue hc =>
        cases h
        subst hc
        rfl
      case isFalse hc => exact absurd h (by simp)

/-- The stem/extension split reassembles to the original file name. -/
theorem splitExtension_eq (name : String) :
    (∀ stem ext, splitExtension name = (stem, some ext) →
      name = stem ++ "." ++ ext) ∧
    (∀ stem, splitExtension name = (stem, none) → stem = name) := by
  constructor
  · intro stem ext h
    unfold splitExtension at h
    split at h
    case h_1 => exact absurd h (by simp)
    case h_2 c rest hname =>
      split at h
      case h_1 => exact absurd h (by simp)
      case h_2 pre post hdot =>
        cases h
        have hr : rest = pre ++ '.' :: post := splitLastDot_eq hdot
        have hjoin : (⟨c :: pre⟩ : String) ++ "." ++ (⟨post⟩ : String) =
            ⟨((c :: pre) ++ ['.']) ++ post⟩ := rfl
        rw [hjoin]
        refine String.toList_inj.mp ?_
        show name.toList = ((c :: pre) ++ ['.']) ++ post
        rw [hname, hr]
        simp
  · intro stem h
    unfold splitExtension at h
    split at h
    case h_1 => cases h; rfl
    case h_2 c rest hname =>
      split at h
      case h_1 => cases h; rfl
      case h_2 => exact absurd h (by simp)

/-- The backup file name is strictly longer than the original name, hence
never equal to it. -/
theorem backupFileName_ne (ts name : String) : backupFileName ts name ≠ name := by
  intro heq
  have hlen : (backupFileName ts name).length = name.length := by rw [heq]
  unfold backupFileName at hlen
  have lb : ("_backup_" : String).length = 8 := rfl
  have ld : ("." : String).length = 1 := rfl
  have lc : ("csv" : String).length = 3 := rfl
  rcases hse : splitExtension name with ⟨stem, ext⟩
  rw [hse] at hlen
  cases ext with
  | none =>
    have hstem : stem = name := (splitExtension_eq name).2 stem hse
    simp only [Option.getD] at hlen
    rw [String.length_append, String.length_append, String.length_append,
      String.length_append, hstem, lb, ld, lc] at hlen
    omega
  | some e =>
    have hname : name = stem ++ "." ++ e := (splitExtension_eq name).1 stem e hse
    simp only [Option.getD] at hlen
    rw [String.length_append, String.length_append, String.length_append,
      String.length_append, lb, ld] at hlen
    rw [hname, String.length_append, String.length_append, ld] at hlen
    omega

/-- The backup path never collides with the path it backs up. -/
theorem backupPathOf_ne (ts : String) (p : FPath) : backupPathOf ts p ≠ p := by
  rcases List.eq_nil_or_concat p with rfl | ⟨q, x, rfl⟩
  · simp [backupPathOf]
  · unfold backupPathOf
    rw [List.concat_eq_append, List.getLast?_concat]
    simp only [List.dropLast_concat]
    intro heq
    have hx := List.append_cancel_left heq
    exact backupFileName_ne ts x (by simpa using hx)

/-- Reading any path other than the one just written is unchanged. -/
theorem setFile_ne {α : Type} (fs : FS α) (p q : FPath) (v : α) (h : q ≠ p) :
    setFile fs p v q = fs q := by
  unfold setFile
  rw [if_neg h]

/-- Reading back the path just written yields the new content. -/
theorem setFile_eq {α : Type} (fs : FS α) (p : FPath) (v : α) :
    setFile fs p v p = some v := by
  unfold setFile
  rw [if_pos rfl]

/-! ## Team-sort lemmas -/

/-- The lexicographic order is total. -/
theorem lexLe_total : ∀ as bs : List Char, lexLe as bs = true ∨ lexLe bs as = true
  | [], _ => Or.inl rfl
  | _ :: _, [] => Or.inr rfl
  | a :: as, b :: bs => by
    unfold lexLe
    rcases Nat.lt_trichotomy a.toNat b.toNat with h | h | h
    · left
      rw [if_pos h]
    · rw [if_neg (by omega), if_neg (by omega), if_neg (by omega), if_neg (by omega)]
      exact lexLe_total as bs
    · right
      rw [if_pos h]

/-- The lexicographic order is transitive. -/
theorem lexLe_trans : ∀ as bs cs : List Char,
    lexLe as bs = true → lexLe bs cs = true → lexLe as cs = true
  | [], _, _, _, _ => rfl
  | _ :: _, [], _, h1, _ => by simp [lexLe] at h1
  | _ :: _, _ :: _, [], _, h2 => by simp [lexLe] at h2
  | a :: as, b :: bs, c :: cs, h1, h2 => by
    unfold lexLe at h1 h2 ⊢
    by_cases hab : a.toNat < b.toNat
    · by_cases hbc : b.toNat < c.toNat
      · rw [if_pos (by omega)]
      · by_cases hcb : c.toNat < b.toNat
        · rw [if_neg hbc, if_pos hcb] at h2
          exact absurd h2 (by simp)
        · rw [if_pos (by omega)]
    · by_cases hba : b.toNat < a.toNat
      · rw [if_neg hab, if_pos hba] at h1
        exact absurd h1 (by simp)
      · rw [if_neg hab, if_neg hba] at h1
        by_cases hbc : b.toNat < c.toNat
        · rw [if_pos (by omega)]
        · by_cases hcb : c.toNat < b.toNat
          · rw [if_neg hbc, if_pos hcb] at h2
            exact absurd h2 (by simp)
          · rw [if_neg hbc, if_neg hcb] at h2
            rw [if_neg (by omega), if_neg (by omega)]
            exact lexLe_trans as bs cs h1 h2

/-- Totality of the embedded Rust string order. -/
theorem strLe_total (a b : String) : strLe a b = true ∨ strLe b a = true :=
  lexLe_total a.toList b.toList

/-- Transitivity of the embedded Rust string order. -/
theorem strLe_trans (a b c : String) (h1 : strLe a b = true)
    (h2 : strLe b c = true) : strLe a c = true :=
  lexLe_trans a.toList b.toList c.toList h1 h2

/-- Sortedness with respect to the embedded Rust string order. -/
def StrSorted (l : List String) : Prop :=
  l.Pairwise (fun a b => strLe a b = true)

/-- Inserting permutes to consing. -/
theorem insertSorted_perm (x : String) (l : List String) :
    List.Perm (insertSorted x l) (x :: l) := by
  induction l with
  | nil => rfl
  | cons y ys ih =>
    unfold insertSorted
    by_cases h : strLe x y = true
    · rw [if_pos h]
    · rw [if_neg h]
      exact List.Perm.trans (List.Perm.cons y ih) (List.Perm.swap x y ys)

/-- Inserting into a sorted list keeps it sorted. -/
theorem insertSorted_sorted (x : String) (l : List String) (h : StrSorted l) :
    StrSorted (insertSorted x l) := by
  induction l with
  | nil => simp [insertSorted, StrSorted]
  | cons y ys ih =>
    rcases List.pairwise_cons.mp h with ⟨hy, hys⟩
    unfold insertSorted
    by_cases hxy : strLe x y = true
    · rw [if_pos hxy]
      refine List.pairwise_cons.mpr ⟨?_, h⟩
      intro z hz
      rcases List.mem_cons.mp hz with rfl | hz
      · exact hxy
      · exact strLe_trans x y z hxy (hy z hz)
    · rw [if_neg hxy]
      refine List.pairwise_cons.mpr ⟨?_, ih hys⟩
      intro z hz
      have hz' := (insertSorted_perm x ys).mem_iff.mp hz
      rcases List.mem_cons.mp hz' with rfl | hz'
      · rcases strLe_total y z with htot | htot
        · exact htot
        · exact absurd htot hxy
      · exact hy z hz'

/-- The sort permutes its input. -/
theorem sortStrings_perm (l : List String) : List.Perm (sortStrings l) l := by
  induction l with
  | nil => rfl
  | cons x xs ih =>
    exact List.Perm.trans (insertSorted_perm x (sortStrings xs)) (List.Perm.cons x ih)

/-- The sort sorts. -/
theorem sortStrings_sorted (l : List String) : StrSorted (sortStrings l) := by
  induction l with
  | nil => exact List.Pairwise.nil
  | cons x xs ih => exact insertSorted_sorted x (sortStrings xs) ih

/-- The derived team list is sorted ascending. -/
theorem teamsOf_sorted (players : List Player) : StrSorted (teamsOf players) :=
  sortStrings_sorted _

/-- The derived team list has no duplicates. -/
theorem teamsOf_nodup (players : List Player) : (teamsOf players).Nodup :=
  (sortStrings_perm _).symm.nodup (List.nodup_dedup _)

/-- The derived team list holds exactly the team values of the records. -/
theorem teamsOf_mem (players : List Player) (s : String) :
    s ∈ teamsOf players ↔ ∃ p ∈ players, p.team = s := by
  unfold teamsOf
  rw [(sortStrings_perm _).mem_iff, List.mem_dedup, List.mem_map]

/-! ## Claim theorems -/

/-- A concrete source table with the unknown column `Size` (the scenario
row of the specification). -/
def sampleTable : Table :=
  ⟨fixedLabels ++ ["Size"],
   [["123", "Red", "Ann", "Lee", "7", "Coach A", "555-1111", "a@x.com",
     "Hat", "Pkg1", "M"]]⟩

/-- The player `sampleTable` decodes to. -/
def samplePlayer : Player :=
  ⟨"123", "Red", "Ann", "Lee", "7", "Coach A", "555-1111", "a@x.com",
   "Hat", "Pkg1", [("Size", "M")]⟩

/-- C2: the claimed round-trip contract cannot hold on the code: this
`Player` carries `#[serde(flatten)]`, serde therefore serializes it as a
map, and the csv crate's serializer rejects maps — so while decoding
succeeds, encoding errors for every roster with at least one record (in
particular for the decoded scenario roster with the unknown `Size`
column), and `decode(encode(decode(x)))` is never produced. -/
theorem encodeTable_always_fails :
    (∀ (p : Player) (rest : List Player), encodeTable (p :: rest) = none) ∧
    decodeTable sampleTable = some [samplePlayer] ∧
    encodeTable [samplePlayer] = none :=
  ⟨fun _ _ => rfl, by decide, rfl⟩

/-- Decoding a row list preserves positions: record `i` of the result is
the decode of source row `i`. -/
theorem decodeRows_get {header : List String} {rows : List (List String)}
    {l : List Player} (h : decodeRows header rows = some l) :
    l.length = rows.length ∧
    ∀ i (hi : i < rows.length) (hp : i < l.length),
      decodeRow header (rows.get ⟨i, hi⟩) = some (l.get ⟨i, hp⟩) := by
  induction rows generalizing l with
  | nil =>
    unfold decodeRows at h
    cases h
    exact ⟨rfl, fun i hi => absurd hi (by simp)⟩
  | cons r rs ih =>
    unfold decodeRows at h
    split at h
    case h_1 p ps hp hps =>
      cases h
      obtain ⟨hlen, hget⟩ := ih hps
      refine ⟨by simp [hlen], ?_⟩
      intro i hi hpi
      cases i with
      | zero => exact hp
      | succ n => exact hget n (by simpa using hi) (by simpa using hpi)
    case h_2 => exact absurd h (by simp)

/-- C9: a successfully loaded file yields its records in source-row order
(record `i` decodes from row `i`), and the derived team list is the set of
distinct team values of the records, sorted ascending and recomputed from
the loaded records. -/
theorem load_csv_file_spec (fs : FS Table) (P : FPath) (d : CSVData)
    (h : load_csv_file fs P = some d) :
    (∃ t, fs P = some t ∧ decodeTable t = some d.players ∧
      d.players.length = t.rows.length ∧
      ∀ i (hi : i < t.rows.length) (hp : i < d.players.length),
        decodeRow t.header (t.rows.get ⟨i, hi⟩) = some (d.players.get ⟨i, hp⟩)) ∧
    StrSorted d.teams ∧ d.teams.Nodup ∧
    (∀ s, s ∈ d.teams ↔ ∃ p ∈ d.players, p.team = s) := by
  unfold load_csv_file at h
  rcases hfs : fs P with _ | t
  · rw [hfs] at h
    exact absurd h (by simp)
  · rw [hfs] at h
    dsimp only at h
    rcases hdt : decodeTable t with _ | players
    · rw [hdt] at h
      exact absurd h (by simp)
    · rw [hdt] at h
      dsimp only at h
      cases h
      obtain ⟨hlen, hget⟩ := decodeRows_get
        (show decodeRows t.header t.rows = some players from hdt)
      exact ⟨⟨t, rfl, hdt, hlen, hget⟩, teamsOf_sorted players,
        teamsOf_nodup players, teamsOf_mem players⟩

/-- A concrete one-file filesystem holding `sampleTable`. -/
def samplePath : FPath := ["data", "roster.csv"]

/-- The concrete filesystem for the witnesses. -/
def sampleFS : FS Table :=
  fun p => if p = samplePath then some sampleTable else none

/-- The `CSVData` loading `sampleFS` produces. -/
def sampleData : CSVData := ⟨[samplePlayer], ["Red"], samplePath⟩

/-- Witness for C9 at the concrete one-row roster. -/
theorem load_csv_file_spec_witness :
    load_csv_file sampleFS samplePath = some sampleData ∧
    StrSorted sampleData.teams ∧ sampleData.teams.Nodup ∧
    (∀ s, s ∈ sampleData.teams ↔ ∃ p ∈ sampleData.players, p.team = s) :=
  ⟨by decide,
   (load_csv_file_spec sampleFS samplePath sampleData (by decide)).2.1,
   (load_csv_file_spec sampleFS samplePath sampleData (by decide)).2.2.1,
   (load_csv_file_spec sampleFS samplePath sampleData (by decide)).2.2.2⟩

/-- The update of the specification scenario: same barcode, first name
changed to `Anne`. -/
def sampleUpdate : PlayerUpdate :=
  ⟨"123", "Anne", "Lee", "555-1111", "a@x.com", "Coach A", "Hat", "Pkg1"⟩

/-- A concrete timestamp string. -/
def sampleTs : String := "20240101_000000"

/-- C3: the claimed seven-field in-place update is never persisted: on a
roster where the update's barcode matches exactly one record,
`save_player_data` returns `Err` at the first `writer.serialize` (the
flattened `Player` cannot be CSV-serialized) after `csv::Writer::from_path`
has already truncated the file, so the file is left empty and only the
backup still holds the original table. -/
theorem save_player_data_fails_on_match :
    (save_player_data sampleFS sampleTs samplePath sampleUpdate).1 = none ∧
    (save_player_data sampleFS sampleTs samplePath sampleUpdate).2 samplePath =
      some emptyTable ∧
    (save_player_data sampleFS sampleTs samplePath sampleUpdate).2
      (backupPathOf sampleTs samplePath) = some sampleTable := by
  decide

/-- An update whose barcode matches nothing in the sample roster. -/
def missUpdate : PlayerUpdate :=
  ⟨"999", "Zoe", "Kim", "555-2222", "z@x.com", "Coach B", "Cap", "Pkg2"⟩

/-- C4: the claimed silent success on a barcode miss does not happen:
with no matching record `save_player_data` still fails at the first
`writer.serialize` and leaves the file truncated rather than rewritten
unchanged; only the backup — which is still created first — holds the
original table. -/
theorem save_player_data_fails_on_miss :
    (∀ q ∈ [samplePlayer], q.barcode ≠ missUpdate.barcode) ∧
    (save_player_data sampleFS sampleTs samplePath missUpdate).1 = none ∧
    (save_player_data sampleFS sampleTs samplePath missUpdate).2 samplePath =
      some emptyTable ∧
    (save_player_data sampleFS sampleTs samplePath missUpdate).2
      (backupPathOf sampleTs samplePath) = some sampleTable := by
  decide

/-- C10: the record-update step of `save_player_data` (the
`iter_mut().find(..)` block, the code the claim cites) uses the update's
barcode only to locate a record and never writes it: every record — the
matched one included — keeps its barcode, the record count is unchanged,
and on a miss the roster is left entirely unchanged (no record is ever
inserted). -/
theorem updatePlayers_barcodes (l : List Player) (u : PlayerUpdate) :
    (updatePlayers l u).map Player.barcode = l.map Player.barcode ∧
    (updatePlayers l u).length = l.length ∧
    ((∀ q ∈ l, q.barcode ≠ u.barcode) → updatePlayers l u = l) := by
  refine ⟨updatePlayers_map_barcode l u, ?_, updatePlayers_no_match l u⟩
  have h := congrArg List.length (updatePlayers_map_barcode l u)
  simpa using h

/-- Witness for C10 at the one-row roster, both for a matching update
and for a miss. -/
theorem updatePlayers_barcodes_witness :
    (updatePlayers [samplePlayer] sampleUpdate).map Player.barcode =
      [samplePlayer].map Player.barcode ∧
    (∀ q ∈ [samplePlayer], q.barcode ≠ missUpdate.barcode) ∧
    updatePlayers [samplePlayer] missUpdate = [samplePlayer] :=
  ⟨(updatePlayers_barcodes [samplePlayer] sampleUpdate).1, by decide,
   (updatePlayers_barcodes [samplePlayer] missUpdate).2.2 (by decide)⟩

/-- The backup path of a path with file name `x` keeps the parent and
renames. -/
theorem backupPathOf_concat (ts : String) (q : FPath) (x : String) :
    backupPathOf ts (q ++ [x]) = q ++ [backupFileName ts x] := by
  unfold backupPathOf
  rw [List.getLast?_concat]
  dsimp only
  rw [List.dropLast_concat]

/-- C5: backing up an existing readable path `P` creates a new sibling
file, distinct from `P`, named `{stem}_backup_{ts}.{ext}` — where the
stem/extension split of `P`'s file name either reassembles to the file
name or, without an extension, the extension defaults to `csv` — whose
content equals `P`'s content at call time; `P` itself and every other
file are untouched and the backup's path is returned.  Backing up a path
that does not exist fails. -/
theorem create_backup_file_spec {α : Type} (fs : FS α) (ts : String) (P : FPath)
    (hne : P ≠ []) :
    (∀ c, fs P = some c →
      ∃ fs' bp, create_backup_file fs ts P = some (fs', bp) ∧
        bp ≠ P ∧
        fs' bp = some c ∧
        fs' P = some c ∧
        (∀ Q, Q ≠ bp → fs' Q = fs Q) ∧
        ∃ stem ext,
          bp = P.dropLast ++ [stem ++ "_backup_" ++ ts ++ "." ++ ext] ∧
          (P.getLast? = some (stem ++ "." ++ ext) ∨
            (ext = "csv" ∧ P.getLast? = some stem))) ∧
    (fs P = none → create_backup_file fs ts P = none) := by
  obtain ⟨q, x, hP⟩ : ∃ q x, P = q ++ [x] := by
    rcases List.eq_nil_or_concat P with h' | ⟨q, x, h'⟩
    · exact absurd h' hne
    · exact ⟨q, x, by rw [h', List.concat_eq_append]⟩
  constructor
  · intro c hc
    refine ⟨setFile fs (backupPathOf ts P) c, backupPathOf ts P, ?_, ?_, ?_, ?_, ?_, ?_⟩
    · unfold create_backup_file
      rw [hc]
    · exact backupPathOf_ne ts P
    · exact setFile_eq fs _ c
    · rw [setFile_ne fs _ P c (fun e => backupPathOf_ne ts P e.symm)]
      exact hc
    · intro Q hQ
      exact setFile_ne fs _ Q c hQ
    · subst hP
      rw [backupPathOf_concat, List.dropLast_concat, List.getLast?_concat]
      unfold backupFileName
      rcases hse : splitExtension x with ⟨stem, ext⟩
      cases ext with
      | some e =>
        refine ⟨stem, e, rfl, Or.inl ?_⟩
        rw [(splitExtension_eq x).1 stem e hse]
      | none =>
        refine ⟨stem, "csv", rfl, Or.inr ⟨rfl, ?_⟩⟩
        rw [(splitExtension_eq x).2 stem hse]
  · intro hc
    unfold create_backup_file
    rw [hc]

/-- A concrete byte-level filesystem holding one raw CSV file. -/
def sampleByteFS : FS String :=
  fun p => if p = samplePath then some "Barcode Number,Team\n123,Red\n" else none

/-- Witness for C5 at a concrete file. -/
theorem create_backup_file_spec_witness :
    samplePath ≠ [] ∧
    sampleByteFS samplePath = some "Barcode Number,Team\n123,Red\n" ∧
    ∃ fs' bp, create_backup_file sampleByteFS sampleTs samplePath = some (fs', bp) ∧
      bp ≠ samplePath ∧
      fs' bp = some "Barcode Number,Team\n123,Red\n" ∧
      fs' samplePath = some "Barcode Number,Team\n123,Red\n" ∧
      (∀ Q, Q ≠ bp → fs' Q = sampleByteFS Q) ∧
      ∃ stem ext,
        bp = samplePath.dropLast ++ [stem ++ "_backup_" ++ sampleTs ++ "." ++ ext] ∧
        (samplePath.getLast? = some (stem ++ "." ++ ext) ∨
          (ext = "csv" ∧ samplePath.getLast? = some stem)) :=
  ⟨by decide, by decide,
    (create_backup_file_spec sampleByteFS sampleTs samplePath (by decide)).1
      "Barcode Number,Team\n123,Red\n" (by decide)⟩

/-- C6: `write_csv_content` resolves a bare file name against
`$HOME/Downloads` (HOME defaulting to the temporary-files root `/tmp`)
and any other path as given; it always succeeds, writes `content` to the
resolved target verbatim, and when the target already existed its old
content is first copied to the target's backup path. -/
theorem write_csv_content_spec (fs : FS String) (home : Option FPath)
    (ts : String) (p : FPath) (content : String) :
    ∃ fs', write_csv_content fs home ts p content = some fs' ∧
      fs' (resolveTarget home p) = some content ∧
      (isBareName p = true →
        resolveTarget home p = (home.getD ["", "tmp"]) ++ ["Downloads"] ++ p) ∧
      (isBareName p = false → resolveTarget home p = p) ∧
      (∀ old, fs (resolveTarget home p) = some old →
        fs' (backupPathOf ts (resolveTarget home p)) = some old) := by
  have hbare1 : isBareName p = true →
      resolveTarget home p = (home.getD ["", "tmp"]) ++ ["Downloads"] ++ p := by
    intro h
    unfold resolveTarget
    rw [if_pos h]
  have hbare2 : isBareName p = false → resolveTarget home p = p := by
    intro h
    unfold resolveTarget
    rw [if_neg (by simp [h])]
  rcases hft : fs (resolveTarget home p) with _ | c
  · refine ⟨setFile fs (resolveTarget home p) content, ?_,
      setFile_eq fs _ content, hbare1, hbare2, ?_⟩
    · unfold write_csv_content
      dsimp only
      rw [hft]
      rfl
    · intro old hold
      exact absurd hold (by simp)
  · refine ⟨setFile (setFile fs (backupPathOf ts (resolveTarget home p)) c)
      (resolveTarget home p) content, ?_, setFile_eq _ _ content, hbare1, hbare2, ?_⟩
    · unfold write_csv_content create_backup_file
      dsimp only
      rw [hft]
      rfl
    · intro old hold
      injection hold with hold'
      subst hold'
      rw [setFile_ne _ (resolveTarget home p) _ content
        (backupPathOf_ne ts (resolveTarget home p))]
      exact setFile_eq fs _ _

/-- The downloads-resolved target of the witness scenario. -/
def downloadsTarget : FPath := ["", "home", "user", "Downloads", "roster.csv"]

/-- A byte-level filesystem where the downloads target already exists. -/
def downloadsFS : FS String :=
  fun q => if q = downloadsTarget then some "old" else none

/-- Witness for C6: a bare `roster.csv` resolves into `$HOME/Downloads`,
the old content is backed up, and the new bytes are written verbatim. -/
theorem write_csv_content_spec_witness :
    isBareName ["roster.csv"] = true ∧
    downloadsFS (resolveTarget (some ["", "home", "user"]) ["roster.csv"]) = some "old" ∧
    ∃ fs', write_csv_content downloadsFS (some ["", "home", "user"]) sampleTs
        ["roster.csv"] "new-bytes" = some fs' ∧
      fs' (resolveTarget (some ["", "home", "user"]) ["roster.csv"]) = some "new-bytes" ∧
      resolveTarget (some ["", "home", "user"]) ["roster.csv"] =
        ["", "home", "user"] ++ ["Downloads"] ++ ["roster.csv"] ∧
      fs' (backupPathOf sampleTs
        (resolveTarget (some ["", "home", "user"]) ["roster.csv"])) = some "old" := by
  obtain ⟨fs', h1, h2, h3, h4, h5⟩ := write_csv_content_spec downloadsFS
    (some ["", "home", "user"]) sampleTs ["roster.csv"] "new-bytes"
  exact ⟨by decide, by decide, fs', h1, h2, h3 (by decide), h5 "old" (by decide)⟩

/-- C7: `git_pull` branches exactly on the working tree's existence.
Absent: it attempts exactly the hard-coded clone in the parent directory
(never a pull), answering the fixed success message on success and the
tool's stderr inside the error on failure, or the spawn error.  Present:
it attempts exactly a pull inside the working tree (never a clone),
answering the tool's trimmed stdout inside the success message and its
stderr inside the error on failure. -/
theorem git_pull_spec (parentDir : FPath) (dirExists : FPath → Bool)
    (exec : GitExec) :
    (dirExists (parentDir ++ [barcodesDirName]) = false →
      (git_pull parentDir dirExists exec).2 = [(cloneArgv, parentDir)] ∧
      (∀ o, exec cloneArgv parentDir = .ok o →
        (o.success = true →
          (git_pull parentDir dirExists exec).1 =
            .ok "Repository cloned successfully!") ∧
        (o.success = false →
          (git_pull parentDir dirExists exec).1 =
            .error ("Git clone failed: " ++ o.stderr))) ∧
      (∀ e, exec cloneArgv parentDir = .error e →
        (git_pull parentDir dirExists exec).1 =
          .error ("Failed to run git clone: " ++ e))) ∧
    (dirExists (parentDir ++ [barcodesDirName]) = true →
      (git_pull parentDir dirExists exec).2 =
        [(pullArgv, parentDir ++ [barcodesDirName])] ∧
      (∀ o, exec pullArgv (parentDir ++ [barcodesDirName]) = .ok o →
        (o.success = true →
          (git_pull parentDir dirExists exec).1 =
            .ok ("Pull successful: " ++ o.stdout.trim)) ∧
        (o.success = false →
          (git_pull parentDir dirExists exec).1 =
            .error ("Git pull failed: " ++ o.stderr)))) := by
  constructor
  · intro hd
    unfold git_pull
    dsimp only
    rw [if_neg (by simp [hd])]
    rcases hx : exec cloneArgv parentDir with e | o
    · refine ⟨rfl, ?_, ?_⟩
      · intro o ho
        exact absurd ho (by simp)
      · intro e' he'
        injection he' with h
        subst h
        rfl
    · refine ⟨?_, ?_, ?_⟩
      · cases hs : o.success <;> simp [hs]
      · intro o' ho'
        injection ho' with h
        subst h
        exact ⟨fun hs => by simp [hs], fun hs => by simp [hs]⟩
      · intro e' he'
        exact absurd he' (by simp)
  · intro hd
    unfold git_pull
    dsimp only
    rw [if_pos hd]
    rcases hx : exec pullArgv (parentDir ++ [barcodesDirName]) with e | o
    · refine ⟨rfl, ?_⟩
      intro o ho
      exact absurd ho (by simp)
    · refine ⟨?_, ?_⟩
      · cases hs : o.success <;> simp [hs]
      · intro o' ho'
        injection ho' with h
        subst h
        exact ⟨fun hs => by simp [hs], fun hs => by simp [hs]⟩

/-- An oracle whose every command spawns and succeeds with empty output. -/
def cloneOkExec : GitExec := fun _ _ => .ok ⟨true, "", ""⟩

/-- Witness for C7: pulling with no working tree attempts exactly the
clone and reports the fixed success message. -/
theorem git_pull_spec_witness :
    ((fun _ : FPath => false) (["app"] ++ [barcodesDirName]) = false) ∧
    (git_pull ["app"] (fun _ => false) cloneOkExec).2 = [(cloneArgv, ["app"])] ∧
    (git_pull ["app"] (fun _ => false) cloneOkExec).1 =
      .ok "Repository cloned successfully!" := by
  have h := (git_pull_spec ["app"] (fun _ => false) cloneOkExec).1 rfl
  exact ⟨rfl, h.1, (h.2.1 ⟨true, "", ""⟩ rfl).1 rfl⟩

/-- C8: `git_push` on a missing working tree fails fast with the
descriptive pull-first error and attempts no git command at all; on an
existing tree it attempts add, commit, push strictly in that order — the
trace is always one of the three prefixes of that sequence — a failed add
stops after add, a genuinely failed commit stops after commit, and only
after a successful commit is push attempted, its exit status deciding the
final outcome. -/
theorem git_push_spec (parentDir : FPath) (dirExists : FPath → Bool)
    (exec : GitExec) (msg : String) :
    (dirExists (parentDir ++ [barcodesDirName]) = false →
      (git_push parentDir dirExists exec msg).1 =
        .error "mvs-job-barcodes folder not found. Please pull first." ∧
      (git_push parentDir dirExists exec msg).2 = []) ∧
    (dirExists (parentDir ++ [barcodesDirName]) = true →
      ((git_push parentDir dirExists exec msg).2 =
          [(addArgv, parentDir ++ [barcodesDirName])] ∨
        (git_push parentDir dirExists exec msg).2 =
          [(addArgv, parentDir ++ [barcodesDirName]),
           (commitArgv msg, parentDir ++ [barcodesDirName])] ∨
        (git_push parentDir dirExists exec msg).2 =
          [(addArgv, parentDir ++ [barcodesDirName]),
           (commitArgv msg, parentDir ++ [barcodesDirName]),
           (pushArgv, parentDir ++ [barcodesDirName])]) ∧
      (∀ ao, exec addArgv (parentDir ++ [barcodesDirName]) = .ok ao →
        ao.success = false →
        (git_push parentDir dirExists exec msg).1 =
          .error ("Git add failed: " ++ ao.stderr) ∧
        (git_push parentDir dirExists exec msg).2 =
          [(addArgv, parentDir ++ [barcodesDirName])]) ∧
      (∀ ao co, exec addArgv (parentDir ++ [barcodesDirName]) = .ok ao →
        ao.success = true →
        exec (commitArgv msg) (parentDir ++ [barcodesDirName]) = .ok co →
        co.success = false →
        containsStr co.stdout "nothing to commit" = false →
        containsStr co.stderr "nothing to commit" = false →
        (git_push parentDir dirExists exec msg).1 =
          .error ("Git commit failed: " ++ co.stderr) ∧
        (git_push parentDir dirExists exec msg).2 =
          [(addArgv, parentDir ++ [barcodesDirName]),
           (commitArgv msg, parentDir ++ [barcodesDirName])]) ∧
      (∀ ao co po, exec addArgv (parentDir ++ [barcodesDirName]) = .ok ao →
        ao.success = true →
        exec (commitArgv msg) (parentDir ++ [barcodesDirName]) = .ok co →
        co.success = true →
        exec pushArgv (parentDir ++ [barcodesDirName]) = .ok po →
        (git_push parentDir dirExists exec msg).2 =
          [(addArgv, parentDir ++ [barcodesDirName]),
           (commitArgv msg, parentDir ++ [barcodesDirName]),
           (pushArgv, parentDir ++ [barcodesDirName])] ∧
        (po.success = true →
          (git_push parentDir dirExists exec msg).1 =
            .ok "Changes pushed successfully!") ∧
        (po.success = false →
          (git_push parentDir dirExists exec msg).1 =
            .error ("Git push failed: " ++ po.stderr)))) := by
  constructor
  · intro hd
    unfold git_push
    dsimp only
    rw [if_neg (by simp [hd])]
    exact ⟨rfl, rfl⟩
  · intro hd
    unfold git_push
    dsimp only
    rw [if_pos hd]
    rcases ha : exec addArgv (parentDir ++ [barcodesDirName]) with e | ao
    · refine ⟨Or.inl rfl, ?_, ?_, ?_⟩
      · intro ao' ha' _
        exact absurd ha' (by simp)
      · intro ao' co ha' _ _ _ _ _
        exact absurd ha' (by simp)
      · intro ao' co po ha' _ _ _ _
        exact absurd ha' (by simp)
    · dsimp only
      cases has : ao.success with
      | false =>
        rw [if_neg (by simp)]
        refine ⟨Or.inl rfl, ?_, ?_, ?_⟩
        · intro ao' ha' hs
          injection ha' with h
          subst h
          exact ⟨rfl, rfl⟩
        · intro ao' co ha' hs _ _ _ _
          injection ha' with h
          subst h
          rw [has] at hs
          exact absurd hs (by simp)
        · intro ao' co po ha' hs _ _ _
          injection ha' with h
          subst h
          rw [has] at hs
          exact absurd hs (by simp)
      | true =>
        rw [if_pos rfl]
        rcases hc : exec (commitArgv msg) (parentDir ++ [barcodesDirName]) with e | co
        · refine ⟨Or.inr (Or.inl rfl), ?_, ?_, ?_⟩
          · intro ao' ha' hs
            injection ha' with h
            subst h
            rw [has] at hs
            exact absurd hs (by simp)
          · intro ao' co' ha' _ hc' _ _ _
            exact absurd hc' (by simp)
          · intro ao' co' po ha' _ hc' _ _
            exact absurd hc' (by simp)
        · dsimp only
          cases hcs : co.success with
          | true =>
            rw [if_pos rfl]
            rcases hp : exec pushArgv (parentDir ++ [barcodesDirName]) with e | po
            · refine ⟨Or.inr (Or.inr rfl), ?_, ?_, ?_⟩
              · intro ao' ha' hs
                injection ha' with h
                subst h
                rw [has] at hs
                exact absurd hs (by simp)
              · intro ao' co' ha' _ hc' hcs' _ _
                injection hc' with h
                subst h
                rw [hcs] at hcs'
                exact absurd hcs' (by simp)
              · intro ao' co' po ha' _ hc' _ hp'
                exact absurd hp' (by simp)
            · dsimp only
              refine ⟨Or.inr (Or.inr ?_), ?_, ?_, ?_⟩
              · cases hps : po.success <;> simp [hps]
              · intro ao' ha' hs
                injection ha' with h
                subst h
                rw [has] at hs
                exact absurd hs (by simp)
              · intro ao' co' ha' _ hc' hcs' _ _
                injection hc' with h
                subst h
                rw [hcs] at hcs'
                exact absurd hcs' (by simp)
              · intro ao' co' po' ha' _ hc' _ hp'
                injection hp' with h
                subst h
                refine ⟨?_, ?_, ?_⟩
                · cases hps : po.success <;> simp [hps]
                · intro hps
                  simp [hps]
                · intro hps
                  simp [hps]
          | false =>
            rw [if_neg (by simp)]
            cases hnc : (containsStr co.stdout "nothing to commit"
                || containsStr co.stderr "nothing to commit") with
            | true =>
              rw [if_pos rfl]
              refine ⟨Or.inr (Or.inl rfl), ?_, ?_, ?_⟩
              · intro ao' ha' hs
                injection ha' with h
                subst h
                rw [has] at hs
                exact absurd hs (by simp)
              · intro ao' co' ha' _ hc' _ hstd hstde
                injection hc' with h
                subst h
                rw [hstd, hstde] at hnc
                exact absurd hnc (by simp)
              · intro ao' co' po ha' _ hc' hcs' _
                injection hc' with h
                subst h
                rw [hcs] at hcs'
                exact absurd hcs' (by simp)
            | false =>
              rw [if_neg (by simp)]
              refine ⟨Or.inr (Or.inl rfl), ?_, ?_, ?_⟩
              · intro ao' ha' hs
                injection ha' with h
                subst h
                rw [has] at hs
                exact absurd hs (by simp)
              · intro ao' co' ha' _ hc' _ _ _
                injection hc' with h
                subst h
                exact ⟨rfl, rfl⟩
              · intro ao' co' po ha' _ hc' hcs' _
                injection hc' with h
                subst h
                rw [hcs] at hcs'
                exact absurd hcs' (by simp)

/-- Witness for C8: with an existing tree and all three commands
succeeding, exactly add, commit, push run in order and the fixed success
message is returned. -/
theorem git_push_spec_witness :
    ((fun _ : FPath => true) (["app"] ++ [barcodesDirName]) = true) ∧
    (git_push ["app"] (fun _ => true) cloneOkExec "fix typo").2 =
      [(addArgv, ["app", barcodesDirName]),
       (commitArgv "fix typo", ["app", barcodesDirName]),
       (pushArgv, ["app", barcodesDirName])] ∧
    (git_push ["app"] (fun _ => true) cloneOkExec "fix typo").1 =
      .ok "Changes pushed successfully!" := by
  have h := (git_push_spec ["app"] (fun _ => true) cloneOkExec "fix typo").2 rfl
  have h2 := h.2.2.2 ⟨true, "", ""⟩ ⟨true, "", ""⟩ ⟨true, "", ""⟩ rfl rfl rfl rfl rfl
  exact ⟨rfl, h2.1, h2.2.1 rfl⟩

/-- An oracle modelling a clean working tree: every command spawns; the
commit exits non-zero with git's usual `nothing to commit` report on
stdout; everything else succeeds. -/
def cleanTreeExec : GitExec := fun args _ =>
  if args = commitArgv "fix typo" then
    .ok ⟨false, "On branch main\nnothing to commit, working tree clean\n", ""⟩
  else .ok ⟨true, "", ""⟩

/-- C1 counterexample: `push("fix typo")` on a working tree with zero
pending changes does NOT return a distinct non-error outcome — the
`Result<String, String>` it answers is an `Err`, the very same error
class every real failure uses; only the message text differs. -/
theorem git_push_nothing_to_commit_is_error :
    (git_push ["app"] (fun _ => true) cleanTreeExec "fix typo").1 =
      .error "Nothing to commit - no changes detected." ∧
    (git_push ["app"] (fun _ => true) cleanTreeExec "fix typo").1.isOk = false := by
  exact ⟨rfl, rfl⟩

/-- C1 (amended): when the commit step fails and its combined
stdout/stderr output contains the substring `nothing to commit`,
`git_push` stops before the push step and returns the distinct fixed
message `Nothing to commit - no changes detected.` — different from the
`Git commit failed: …` text a real commit failure would carry — but it
surfaces this outcome through the same `Err` channel as a real failure,
distinguished only by the message text. -/
theorem git_push_nothing_to_commit (parentDir : FPath) (dirExists : FPath → Bool)
    (exec : GitExec) (msg : String) (ao co : CmdResult)
    (hd : dirExists (parentDir ++ [barcodesDirName]) = true)
    (ha : exec addArgv (parentDir ++ [barcodesDirName]) = .ok ao)
    (has : ao.success = true)
    (hc : exec (commitArgv msg) (parentDir ++ [barcodesDirName]) = .ok co)
    (hcs : co.success = false)
    (hnc : (containsStr co.stdout "nothing to commit"
        || containsStr co.stderr "nothing to commit") = true) :
    (git_push parentDir dirExists exec msg).1 =
      .error "Nothing to commit - no changes detected." ∧
    (git_push parentDir dirExists exec msg).2 =
      [(addArgv, parentDir ++ [barcodesDirName]),
       (commitArgv msg, parentDir ++ [barcodesDirName])] ∧
    "Nothing to commit - no changes detected." ≠
      "Git commit failed: " ++ co.stderr := by
  have hrun : git_push parentDir dirExists exec msg =
      (.error "Nothing to commit - no changes detected.",
       [(addArgv, parentDir ++ [barcodesDirName]),
        (commitArgv msg, parentDir ++ [barcodesDirName])]) := by
    unfold git_push
    dsimp only
    rw [if_pos hd, ha]
    dsimp only
    rw [if_pos has, hc]
    dsimp only
    rw [if_neg (by simp [hcs]), if_pos hnc]
  refine ⟨by rw [hrun], by rw [hrun], ?_⟩
  intro h
  have h2 := congrArg (fun s : String => s.data.head?) h
  have h3 : ("Git commit failed: " ++ co.stderr).data.head? = some 'G' := by
    rw [String.data_append]
    rfl
  simp only [h3] at h2
  exact absurd h2 (by decide)

/-- Witness for the amended C1 on the concrete clean-tree oracle. -/
theorem git_push_nothing_to_commit_witness :
    (git_push ["app"] (fun _ => true) cleanTreeExec "fix typo").1 =
      .error "Nothing to commit - no changes detected." ∧
    (git_push ["app"] (fun _ => true) cleanTreeExec "fix typo").2 =
      [(addArgv, ["app", barcodesDirName]),
       (commitArgv "fix typo", ["app", barcodesDirName])] ∧
    "Nothing to commit - no changes detected." ≠ "Git commit failed: " ++
      (CmdResult.mk false
        "On branch main\nnothing to commit, working tree clean\n" "").stderr :=
  git_push_nothing_to_commit ["app"] (fun _ => true) cleanTreeExec "fix typo"
    ⟨true, "", ""⟩
    ⟨false, "On branch main\nnothing to commit, working tree clean\n", ""⟩
    rfl rfl rfl rfl rfl (by decide)

end MvsPhotoForm
